import Mathlib

/-!
Shallow embedding of the MangaPark downloader (`mangapark.py` and
`gui/app.py`) and verification of its specification claims.

Python strings are embedded as `List Char`; machine-level `float` arithmetic
appears only in the image validator (exact rational arithmetic over `ℚ`, which
agrees with the comparisons the code performs on the reachable values) and in
the progress computation (`int(a / b * c)` is modelled as the natural-number
floor `a * c / b`).  External effects (the network, PIL decoding, the
filesystem, converter libraries) are parameters of the definitions; the
completion order of a thread pool is an explicit permutation argument, since
that order is the only observable effect of the pool's `max_workers` bound.
-/

namespace Mangapark

/-- Python strings, embedded as lists of characters. -/
abbrev Str := List Char

/-- Python's `s.split(sep)` for a one-character separator: always returns a
nonempty list, `"".split(c) = [""]`. -/
def splitOnChar (c : Char) : Str → List Str
  | [] => [[]]
  | x :: xs =>
    match splitOnChar c xs with
    | [] => [[]]
    | y :: ys => if x = c then [] :: y :: ys else (x :: y) :: ys

/-- Python's `str.lower()` (ASCII case folding suffices for the strings the
program manipulates). -/
def lowerStr (s : Str) : Str := s.map Char.toLower

/-- The character for a decimal digit `d < 10`. -/
def digitChar (d : Nat) : Char := Char.ofNat (48 + d)

/-- Decimal rendering of a natural number, as Python's `str`/`format` does. -/
def natToChars (n : Nat) : Str :=
  if n < 10 then [digitChar n] else natToChars (n / 10) ++ [digitChar (n % 10)]
  decreasing_by exact Nat.div_lt_self (by omega) (by omega)

/-- Python's `f"{n:03d}"`: decimal digits, left-padded with zeros to width 3. -/
def natPad3 (n : Nat) : Str :=
  let s := natToChars n
  List.replicate (3 - s.length) '0' ++ s

/-- Model of `os.path.join` on POSIX: `dir + "/" + name`. -/
def pjoin (dir name : Str) : Str := dir ++ '/' :: name

/-- Model of `os.path.basename`: the component after the last `/`. -/
def basename (p : Str) : Str := (splitOnChar '/' p).getLastD p

/-- The extension component of `os.path.splitext p`: the suffix of the final
path component starting at its last `.`, unless every character before that
`.` is itself a `.` (so `".bashrc"` has no extension). -/
def splitext_ext (p : Str) : Str :=
  let base := basename p
  let rev := base.reverse
  let extRev := rev.takeWhile (fun ch => ch != '.')
  match rev.dropWhile (fun ch => ch != '.') with
  | [] => []
  | _ :: before =>
    if before.any (fun ch => ch != '.') then '.' :: extRev.reverse else []

/-- Lexicographic (code-point) comparison of strings, the order used by
Python's `list.sort()` on strings. -/
def strLe : Str → Str → Bool
  | [], _ => true
  | _ :: _, [] => false
  | a :: as, b :: bs => if a < b then true else if b < a then false else strLe as bs

instance : DecidableRel (fun a b : Str => strLe a b = true) :=
  fun a b => instDecidableEqBool (strLe a b) true

/-! ## The image validator (`is_valid_manga_image`) -/

/-- A downloaded byte buffer, as the validator sees it: its byte length plus
the result of PIL decoding — `none` when `Image.open` raises, `some (w, h)`
for an image of width `w` and height `h`. -/
structure ImgData where
  len : Nat
  decoded : Option (Nat × Nat)
deriving DecidableEq

/-- The Python exceptions the embedded fragment can raise. -/
inductive PyErr where
  | zeroDivision
  | decodeFail
deriving DecidableEq

/-- Computation of `max(width / height, height / width)` with Python's raising division:
`width / height` is evaluated first, so a zero height raises before a zero
width does. -/
def aspectRatioQ (width height : Nat) : Except PyErr ℚ :=
  if height = 0 then .error .zeroDivision
  else if width = 0 then .error .zeroDivision
  else .ok (max ((width : ℚ) / height) ((height : ℚ) / width))

/-- The `try`-block of `is_valid_manga_image`: decode, compute the aspect
ratio and size in KB, and test the four thresholds. -/
def is_valid_core (img_data : ImgData) (min_width min_height : Nat)
    (min_aspect_ratio : ℚ) : Except PyErr Bool :=
  match img_data.decoded with
  | none => .error .decodeFail
  | some (width, height) => do
    let aspect_ratio ← aspectRatioQ width height
    let img_size_kb : ℚ := (img_data.len : ℚ) / 1024
    pure (decide (width > min_width) && decide (height > min_height) &&
          decide (aspect_ratio ≥ min_aspect_ratio) && decide (img_size_kb > 30))

/-- Model of `is_valid_manga_image` with its default thresholds (400, 400, 1.2): any
exception raised inside the `try` block is caught and mapped to `False`. -/
def is_valid_manga_image (img_data : ImgData) : Bool :=
  match is_valid_core img_data 400 400 (12 / 10 : ℚ) with
  | .ok b => b
  | .error _ => false

/-! ## The single-image worker (`download_image`) -/

/-- What `requests.get` does for one image: raise a transport exception, or
return a response with an HTTP status code and a body. -/
inductive FetchOutcome where
  | exn
  | resp (status : Nat) (content : ImgData)

/-- The `(img_index, img_path, success)` triple `download_image` returns. -/
structure ImageResult where
  index : Nat
  path : Option Str
  accepted : Bool
deriving DecidableEq

/-- Computation of `img_url.split('.')[-1].split('?')[0].lower()` — the code's extension
derivation. -/
def ext_of_url (img_url : Str) : Str :=
  lowerStr ((splitOnChar '?' ((splitOnChar '.' img_url).getLastD img_url)).headD [])

/-- The fixed allow-list of recognised image extensions. -/
def allowed_exts : List Str := ["jpg", "jpeg", "png", "webp", "gif"].map String.toList

/-- The extension actually used for the temp file: the derived extension if
recognised, else `jpg`. -/
def chosen_ext (img_url : Str) : Str :=
  let extension := ext_of_url img_url
  if extension ∈ allowed_exts then extension else "jpg".toList

/-- Rendering of `f"temp_{img_index:03d}.{extension}"`. -/
def temp_filename (img_index : Nat) (extension : Str) : Str :=
  "temp_".toList ++ natPad3 img_index ++ '.' :: extension

/-- Model of `download_image(img_url, referer, img_index, chapter_dir, chapter_title)`.
Total model of the worker: every branch, including the two error branches
(`requests` exception, `raise_for_status` on a 4xx/5xx status), returns a
result instead of raising.  The second component is the list of files the
call writes. -/
def download_image (fetch : FetchOutcome) (img_url : Str) (img_index : Nat)
    (chapter_dir : Str) : ImageResult × List Str :=
  match fetch with
  | .exn => (⟨img_index, none, false⟩, [])
  | .resp status content =>
    if 400 ≤ status ∧ status < 600 then (⟨img_index, none, false⟩, [])
    else if ¬ is_valid_manga_image content then (⟨img_index, none, false⟩, [])
    else
      let img_path := pjoin chapter_dir (temp_filename img_index (chosen_ext img_url))
      (⟨img_index, some img_path, true⟩, [img_path])

/-- Extension derivation as the specification words it: the extension of the
URL's trailing path segment after stripping the query string.  Used only to
compare the spec's description against `ext_of_url` above. -/
def spec_ext_of_url (img_url : Str) : Str :=
  let no_query := (splitOnChar '?' img_url).headD []
  let segment := (splitOnChar '/' no_query).getLastD no_query
  if '.' ∈ segment then lowerStr ((splitOnChar '.' segment).getLastD segment) else []

/-! ## The image fetch pool and chapter assembly
(`download_chapter_with_selenium`) -/

/-- One submitted future: the worker applied to task `i` of the chapter.
`env i` is the network's behaviour for that task's URL. -/
def worker (env : Nat → FetchOutcome) (image_urls : List Str) (chapter_dir : Str)
    (i : Nat) : ImageResult × List Str :=
  download_image (env i) (image_urls.getD i []) i chapter_dir

/-- The results produced by the workers, in the order `as_completed` yields
them (`order` is the completion order of the futures). -/
def pool_results (env : Nat → FetchOutcome) (image_urls : List Str)
    (chapter_dir : Str) (order : List Nat) : List ImageResult :=
  order.map (fun i => (worker env image_urls chapter_dir i).1)

/-- The `results` list the collection loop builds: a result is appended only
`if result[2]`, i.e. only when it was successful. -/
def collected_results (env : Nat → FetchOutcome) (image_urls : List Str)
    (chapter_dir : Str) (order : List Nat) : List ImageResult :=
  (pool_results env image_urls chapter_dir order).filter (fun r => r.accepted)

/-- All files written by the workers, in completion order. -/
def pool_writes (env : Nat → FetchOutcome) (image_urls : List Str)
    (chapter_dir : Str) (order : List Nat) : List Str :=
  (order.map (fun i => (worker env image_urls chapter_dir i).2)).flatten

/-- Removal of (the first occurrence of) a file name from a directory
listing — the effect of `os.rename` on its source entry. -/
def removeFile (files : List Str) (p : Str) : List Str :=
  match files with
  | [] => []
  | f :: fs => if f = p then fs else f :: removeFile fs p

/-- One iteration of the final renaming loop: `for _, temp_path, _ in results:
if temp_path: count += 1; rename(temp_path, chapter_dir/f"{count:03d}{ext}")`.
The state is the chapter directory's file list plus `valid_images_count`. -/
def rename_step (chapter_dir : Str) : List Str × Nat → ImageResult → List Str × Nat
  | (files, valid_images_count), r =>
    match r.path with
    | none => (files, valid_images_count)
    | some temp_path =>
      if temp_path.isEmpty then (files, valid_images_count)
      else
        let count := valid_images_count + 1
        let extension := splitext_ext temp_path
        let final_path := pjoin chapter_dir (natPad3 count ++ extension)
        (removeFile files temp_path ++ [final_path], count)

/-- The outcome of one chapter run: what the function returns plus the
chapter directory's final file list. -/
structure ChapterRun where
  directory : Str
  success : Bool
  acceptedCount : Nat
  files : List Str
deriving DecidableEq

def debug_page_name : Str := "debug_page.html".toList

/-- The image-URL list built from the discovered image elements: each
element's `src` attribute, kept only when truthy (`if img_url:`). -/
def chapterUrls (image_elements : List (Option Str)) : List Str :=
  (image_elements.filterMap id).filter (fun u => !u.isEmpty)

/-- Model of `download_chapter_with_selenium` from image-element discovery onward.
`image_elements` holds each discovered element's `src` attribute.  If no
elements were found the code dumps `debug_page.html` into the chapter
directory and returns failure.  Otherwise it fans the tasks out over a
`ThreadPoolExecutor(max_workers := max_concurrent_downloads)`; the pool bound's
only observable effect is the completion order of the futures, which is the
explicit `order` argument (any permutation of the task indices can occur for
any bound ≥ 1).  Collected successful results are sorted by original index
(Python's stable sort, embedded as an insertion sort on the index key) and
renamed into the contiguous sequence `001..`. -/
def download_chapter (image_elements : List (Option Str)) (env : Nat → FetchOutcome)
    (max_concurrent_downloads : Nat) (order : List Nat) (chapter_dir : Str) :
    ChapterRun :=
  if image_elements.isEmpty then
    { directory := chapter_dir, success := false, acceptedCount := 0,
      files := [pjoin chapter_dir debug_page_name] }
  else
    let image_urls := chapterUrls image_elements
    let results := collected_results env image_urls chapter_dir order
    let sorted := List.insertionSort (fun a b => a.index ≤ b.index) results
    let st := sorted.foldl (rename_step chapter_dir)
      (pool_writes env image_urls chapter_dir order, 0)
    { directory := chapter_dir, success := decide (0 < st.2),
      acceptedCount := st.2, files := st.1 }

/-- The final names the renaming loop produces for a run of results, starting
from a given `valid_images_count`. -/
def finalsFrom (chapter_dir : Str) : Nat → List ImageResult → List Str
  | _, [] => []
  | count, r :: rs =>
    pjoin chapter_dir (natPad3 (count + 1) ++ splitext_ext (r.path.getD []))
      :: finalsFrom chapter_dir (count + 1) rs

/-- The final file names a chapter directory should hold, spelled without
reference to temp files: the `k`-th accepted task index `i` (ascending)
yields `chapter_dir/<k+1 zero-padded>.<chosen_ext (url i)>`. -/
def finalNamesFrom (chapter_dir : Str) (image_urls : List Str) :
    Nat → List Nat → List Str
  | _, [] => []
  | count, i :: is =>
    pjoin chapter_dir (natPad3 (count + 1) ++ '.' :: chosen_ext (image_urls.getD i []))
      :: finalNamesFrom chapter_dir image_urls (count + 1) is

/-! ## The converters (`create_cbz`, `create_pdf`) -/

def image_exts_cbz : List Str := [".jpg", ".jpeg", ".png", ".webp", ".gif"].map String.toList

def image_exts_pdf : List Str := [".jpg", ".jpeg", ".png"].map String.toList

/-- Computation of `file.lower().endswith(tuple_of_extensions)`. -/
def has_image_ext (exts : List Str) (file : Str) : Bool :=
  exts.any (fun e => e.isSuffixOf (lowerStr file))

/-- Model of `create_cbz(chapter_dir, chapter_title)`.  `listing` is what `os.listdir`
does (its error is an I/O failure); `zip_ok` is whether writing the zip
archive succeeds.  Returns the produced path (`none` on failure, mirroring
`return None` from the catch-all handler) and the archive's entries. -/
def create_cbz (listing : Except Unit (List Str)) (zip_ok : Bool)
    (chapter_dir : Str) : Option Str × List Str :=
  match listing with
  | .error _ => (none, [])
  | .ok files =>
    let image_files := (files.filter (has_image_ext image_exts_cbz)).map (pjoin chapter_dir)
    if image_files.isEmpty then (none, [])
    else
      let sorted := List.insertionSort (fun a b => strLe a b = true) image_files
      if zip_ok then (some (chapter_dir ++ ".cbz".toList), sorted.map basename)
      else (none, [])

/-- Model of `create_pdf(chapter_dir, chapter_title)`.  `open_ok` is whether opening
the output file succeeds, `conv` is what `img2pdf.convert` does (error = it
raises; `ok b` = it returns a value of truthiness `b`), `write_ok` is whether
the byte write succeeds.  Note the code returns the path even when
`img2pdf.convert` returned a falsy value. -/
def create_pdf (listing : Except Unit (List Str)) (open_ok : Bool)
    (conv : Except Unit Bool) (write_ok : Bool) (chapter_dir : Str) :
    Option Str × List Str :=
  match listing with
  | .error _ => (none, [])
  | .ok files =>
    let image_files := (files.filter (has_image_ext image_exts_pdf)).map (pjoin chapter_dir)
    if image_files.isEmpty then (none, [])
    else
      let sorted := List.insertionSort (fun a b => strLe a b = true) image_files
      if ¬ open_ok then (none, [])
      else
        match conv with
        | .error _ => (none, [])
        | .ok truthy =>
          if truthy ∧ ¬ write_ok then (none, [])
          else (some (chapter_dir ++ ".pdf".toList), sorted)

/-! ## The GUI job (`run_download_job` in `gui/app.py`) -/

inductive ConvLabel where
  | cbz
  | pdf
deriving DecidableEq

/-- The requested conversion phases, in the order the code builds the
`conversions` list. -/
def conversions_for (convert_mode : Str) : List ConvLabel :=
  (if convert_mode = "cbz".toList ∨ convert_mode = "both".toList then [ConvLabel.cbz] else []) ++
  (if convert_mode = "pdf".toList ∨ convert_mode = "both".toList then [ConvLabel.pdf] else [])

/-- State threaded through the conversion stage: which chapter directories
still exist on disk, and which `(format, chapter)` outputs were produced. -/
structure ConvState where
  dirs : Nat → Bool
  produced : List (ConvLabel × Nat)

/-- Computation of `span = 35 // max(1, len(conversions))`. -/
def conv_span (numConversions : Nat) : Nat := 35 / max 1 numConversions

/-- The body of one conversion-loop iteration for one chapter: on a truthy
converter result the `(format, chapter)` output is recorded and, if cleanup
is requested and the directory still exists and `shutil.rmtree` succeeds,
the chapter's directory is removed. -/
def conv_apply (delete_sources : Bool) (label : ConvLabel)
    (conv_ok rm_ok : ConvLabel → Nat → Bool) (st : ConvState) (ch : Nat) : ConvState :=
  if conv_ok label ch then
    { dirs := if delete_sources ∧ st.dirs ch ∧ rm_ok label ch then
                (fun c => if c = ch then false else st.dirs c)
              else st.dirs,
      produced := st.produced ++ [(label, ch)] }
  else st

/-- The inner loop of one conversion phase over the successful chapters.
`idx` is the 1-based `enumerate` counter; a chapter is skipped (no converter
call, no progress emission) when the phase is PDF and its directory is gone.
The progress emission is `min(95, base + int(idx / max(1, total) * span))`. -/
def conv_inner (delete_sources : Bool) (label : ConvLabel)
    (conv_ok rm_ok : ConvLabel → Nat → Bool) (base span total : Nat) :
    Nat → List Nat → ConvState → ConvState × List Nat
  | _, [], st => (st, [])
  | idx, ch :: rest, st =>
    if label = ConvLabel.pdf ∧ ¬ st.dirs ch then
      conv_inner delete_sources label conv_ok rm_ok base span total (idx + 1) rest st
    else
      let st' := conv_apply delete_sources label conv_ok rm_ok st ch
      let e := min 95 (base + idx * span / max 1 total)
      let rec' := conv_inner delete_sources label conv_ok rm_ok base span total
        (idx + 1) rest st'
      (rec'.1, e :: rec'.2)

/-- The outer loop over the conversion phases (`enumerate(conversions, 1)`);
returns the final state and one emission chunk per phase. -/
def conv_outer (delete_sources : Bool) (conv_ok rm_ok : ConvLabel → Nat → Bool)
    (numConversions total : Nat) (successful : List Nat) :
    Nat → List ConvLabel → ConvState → ConvState × List (List Nat)
  | _, [], st => (st, [])
  | phase, label :: rest, st =>
    let span := conv_span numConversions
    let step := conv_inner delete_sources label conv_ok rm_ok
      (60 + (phase - 1) * span) span total 1 successful st
    let next := conv_outer delete_sources conv_ok rm_ok numConversions total successful
      (phase + 1) rest step.1
    (next.1, step.2 :: next.2)

/-- The chapters that downloaded successfully, as `(dir, title)` pairs are
accumulated: input order in sequential mode, completion order (`chOrder`) in
threaded mode. -/
def fetch_successful (threaded : Bool) (n : Nat) (fetch_ok : Nat → Bool)
    (chOrder : List Nat) : List Nat :=
  if threaded then chOrder.filter fetch_ok else (List.range n).filter fetch_ok

/-- The progress emissions of the fetch stage: sequential mode emits
`int(idx / total * 60)` after every chapter; threaded mode emits nothing. -/
def fetch_emits (threaded : Bool) (n : Nat) : List Nat :=
  if threaded then [] else (List.range n).map (fun k => (k + 1) * 60 / n)

/-- What a `run_download_job` run emits and produces. -/
structure JobRun where
  emits : List Nat
  phase_emits : List (List Nat)
  produced : List (ConvLabel × Nat)
  successful : List Nat

/-- Model of `run_download_job(signals, chapters, threaded, concurrency, convert_mode,
delete_sources)` for `n` selected chapters, from the download loop onward.
`fetch_ok ch` is whether chapter `ch` downloads successfully; `conv_ok l ch`
is whether converter `l` returns a truthy path for chapter `ch`; `rm_ok` is
whether the cleanup `rmtree` succeeds. -/
def run_download_job (n : Nat) (threaded : Bool) (fetch_ok : Nat → Bool)
    (chOrder : List Nat) (convert_mode : Str) (delete_sources : Bool)
    (conv_ok rm_ok : ConvLabel → Nat → Bool) : JobRun :=
  let successful := fetch_successful threaded n fetch_ok chOrder
  let fe := fetch_emits threaded n
  if successful.isEmpty then
    { emits := fe ++ [100], phase_emits := [], produced := [], successful := successful }
  else
    let labels := conversions_for convert_mode
    let res := conv_outer delete_sources conv_ok rm_ok labels.length
      successful.length successful 1 labels { dirs := fun _ => true, produced := [] }
    { emits := fe ++ res.2.flatten ++ [100], phase_emits := res.2,
      produced := res.1.produced, successful := successful }

/-! ## Theorems -/

/-- The validator rejects whenever the aspect-ratio computation divides by a
zero dimension (a `ZeroDivisionError` swallowed by the handler). -/
theorem is_valid_eq_false_of_zero_dim (len : Nat) (w h : Nat) (hz : w = 0 ∨ h = 0) :
    is_valid_manga_image ⟨len, some (w, h)⟩ = false := by
  rcases hz with rfl | rfl
  · by_cases hh : h = 0 <;>
      simp [is_valid_manga_image, is_valid_core, aspectRatioQ, hh, Except.bind, bind]
  · simp [is_valid_manga_image, is_valid_core, aspectRatioQ, Except.bind, bind]

/-- Claim C9. The image validator is total: undecodable buffers and buffers
decoding to an image with a zero dimension (where `width / height` or
`height / width` raises `ZeroDivisionError`) are mapped to rejection by the
catch-all handler, never to an escaping exception.  (Totality itself is by
construction: `is_valid_manga_image` is a Lean function into `Bool`, the
`Except` value of the `try`-body being matched and its `error` case
returning `false`.) -/
theorem validator_total_and_fail_safe (img : ImgData)
    (h : img.decoded = none ∨ ∃ w h', img.decoded = some (w, h') ∧ (w = 0 ∨ h' = 0)) :
    is_valid_manga_image img = false := by
  obtain ⟨len, decoded⟩ := img
  rcases h with h | ⟨w, h', heq, hz⟩
  · simp only at h
    subst h
    rfl
  · simp only at heq
    subst heq
    exact is_valid_eq_false_of_zero_dim len w h' hz

/-- Claim C2. The validator accepts exactly when the buffer decodes to an image
with `w > 400`, `h > 400`, aspect ratio `max (w / h) (h / w) ≥ 1.2` and size
`len / 1024 > 30` KB; undecodable buffers are rejected.  The four §8 test
vectors evaluate as the spec states. -/
theorem validator_thresholds_exact :
    (∀ img : ImgData, is_valid_manga_image img = true ↔
      ∃ w h, img.decoded = some (w, h) ∧ 400 < w ∧ 400 < h ∧
        (12 / 10 : ℚ) ≤ max ((w : ℚ) / h) ((h : ℚ) / w) ∧
        (30 : ℚ) < (img.len : ℚ) / 1024) ∧
    is_valid_manga_image ⟨50 * 1024, some (399, 500)⟩ = false ∧
    is_valid_manga_image ⟨50 * 1024, some (500, 500)⟩ = false ∧
    is_valid_manga_image ⟨20 * 1024, some (500, 800)⟩ = false ∧
    is_valid_manga_image ⟨50 * 1024, some (500, 800)⟩ = true := by
  refine ⟨fun img => ?_, ?_, ?_, ?_, ?_⟩
  · obtain ⟨len, decoded⟩ := img
    cases decoded with
    | none => simp [is_valid_manga_image, is_valid_core]
    | some wh =>
      obtain ⟨w, h⟩ := wh
      by_cases hh : h = 0
      · subst hh
        rw [is_valid_eq_false_of_zero_dim len w 0 (Or.inr rfl)]
        simp
      · by_cases hw : w = 0
        · subst hw
          rw [is_valid_eq_false_of_zero_dim len 0 h (Or.inl rfl)]
          simp
        · simp only [is_valid_manga_image, is_valid_core, aspectRatioQ, hh, hw,
            if_false, Except.bind, bind, pure, Except.pure, Bool.and_eq_true,
            decide_eq_true_eq, ge_iff_le, gt_iff_lt, Option.some.injEq,
            Prod.mk.injEq]
          constructor
          · rintro ⟨⟨⟨h1, h2⟩, h3⟩, h4⟩
            exact ⟨w, h, ⟨rfl, rfl⟩, h1, h2, h3, h4⟩
          · rintro ⟨w', h', ⟨rfl, rfl⟩, h1, h2, h3, h4⟩
            exact ⟨⟨⟨h1, h2⟩, h3⟩, h4⟩
  · norm_num [is_valid_manga_image, is_valid_core, aspectRatioQ, Except.bind,
      bind, pure, Except.pure]
  · norm_num [is_valid_manga_image, is_valid_core, aspectRatioQ, Except.bind,
      bind, pure, Except.pure]
  · norm_num [is_valid_manga_image, is_valid_core, aspectRatioQ, Except.bind,
      bind, pure, Except.pure]
  · norm_num [is_valid_manga_image, is_valid_core, aspectRatioQ, Except.bind,
      bind, pure, Except.pure]

/-- Witness for `validator_total_and_fail_safe` at an undecodable buffer. -/
theorem validator_total_and_fail_safe_witness :
    is_valid_manga_image ⟨7, none⟩ = false :=
  validator_total_and_fail_safe ⟨7, none⟩ (Or.inl rfl)

/-- Evaluation of the validator on the accepted concrete example, shared by
several concrete runs below. -/
theorem is_valid_example : is_valid_manga_image ⟨51200, some (500, 800)⟩ = true := by
  norm_num [is_valid_manga_image, is_valid_core, aspectRatioQ, Except.bind,
    bind, pure, Except.pure]

/-- Unfolding equation of the worker on the exception branch. -/
theorem download_image_exn (img_url : Str) (img_index : Nat) (chapter_dir : Str) :
    download_image FetchOutcome.exn img_url img_index chapter_dir
      = (⟨img_index, none, false⟩, []) := rfl

/-- Unfolding equation of the worker on a received response. -/
theorem download_image_resp (status : Nat) (content : ImgData) (img_url : Str)
    (img_index : Nat) (chapter_dir : Str) :
    download_image (FetchOutcome.resp status content) img_url img_index chapter_dir
      = if 400 ≤ status ∧ status < 600 then (⟨img_index, none, false⟩, [])
        else if ¬ is_valid_manga_image content then (⟨img_index, none, false⟩, [])
        else (⟨img_index,
                some (pjoin chapter_dir (temp_filename img_index (chosen_ext img_url))),
                true⟩,
              [pjoin chapter_dir (temp_filename img_index (chosen_ext img_url))]) := rfl

/-- Every branch of the worker reports the task's own index. -/
theorem download_image_index (fetch : FetchOutcome) (img_url : Str) (img_index : Nat)
    (chapter_dir : Str) :
    ((download_image fetch img_url img_index chapter_dir).1).index = img_index := by
  cases fetch with
  | exn => rfl
  | resp s c =>
    rw [download_image_resp]
    by_cases h1 : 400 ≤ s ∧ s < 600
    · rw [if_pos h1]
    · rw [if_neg h1]
      by_cases h2 : is_valid_manga_image c
      · rw [if_neg (by simp [h2])]
      · rw [if_pos (by simp [h2])]

/-- A worker that did not accept returns the bare failure triple and writes
nothing. -/
theorem download_image_of_not_accepted (fetch : FetchOutcome) (img_url : Str)
    (img_index : Nat) (chapter_dir : Str)
    (h : ((download_image fetch img_url img_index chapter_dir).1).accepted = false) :
    download_image fetch img_url img_index chapter_dir = (⟨img_index, none, false⟩, []) := by
  cases fetch with
  | exn => rfl
  | resp s c =>
    rw [download_image_resp] at h ⊢
    by_cases h1 : 400 ≤ s ∧ s < 600
    · rw [if_pos h1]
    · rw [if_neg h1] at h ⊢
      by_cases h2 : is_valid_manga_image c
      · rw [if_neg (by simp [h2])] at h
        simp at h
      · rw [if_pos (by simp [h2])]

/-- A worker that accepted wrote exactly its temp file and reports its path. -/
theorem download_image_of_accepted (fetch : FetchOutcome) (img_url : Str)
    (img_index : Nat) (chapter_dir : Str)
    (h : ((download_image fetch img_url img_index chapter_dir).1).accepted = true) :
    download_image fetch img_url img_index chapter_dir =
      (⟨img_index,
        some (pjoin chapter_dir (temp_filename img_index (chosen_ext img_url))), true⟩,
       [pjoin chapter_dir (temp_filename img_index (chosen_ext img_url))]) := by
  cases fetch with
  | exn => simp [download_image_exn] at h
  | resp s c =>
    rw [download_image_resp] at h ⊢
    by_cases h1 : 400 ≤ s ∧ s < 600
    · rw [if_pos h1] at h
      simp at h
    · rw [if_neg h1] at h ⊢
      by_cases h2 : is_valid_manga_image c
      · rw [if_neg (by simp [h2])]
      · rw [if_pos (by simp [h2])] at h
        simp at h

/-- Claim C4. On a transport exception or a 4xx/5xx status
(`raise_for_status`), `download_image` returns `(task.index, None, False)`
and never lets the error escape: the model is a total function whose two
error branches both land in this triple, writing no file. -/
theorem worker_absorbs_transport_errors (fetch : FetchOutcome) (img_url : Str)
    (img_index : Nat) (chapter_dir : Str)
    (herr : fetch = FetchOutcome.exn ∨
      ∃ s c, fetch = FetchOutcome.resp s c ∧ 400 ≤ s ∧ s < 600) :
    download_image fetch img_url img_index chapter_dir = (⟨img_index, none, false⟩, []) := by
  rcases herr with rfl | ⟨s, c, rfl, hs⟩
  · rfl
  · rw [download_image_resp, if_pos hs]

/-- Witness for `worker_absorbs_transport_errors` at a concrete exception. -/
theorem worker_absorbs_transport_errors_witness :
    download_image FetchOutcome.exn "u".toList 3 "d".toList = (⟨3, none, false⟩, []) :=
  worker_absorbs_transport_errors FetchOutcome.exn "u".toList 3 "d".toList (Or.inl rfl)

/-- Claim C5, counterexample. For the URL `http://h/a.jpg?v=2.png` the code's
derivation (`split('.')[-1].split('?')[0]`) yields `png` — the last
dot-segment of the whole URL, which here lies inside the query string — while
the claimed derivation (extension of the trailing path segment after
stripping the query) yields `jpg`; the accepted image is therefore written
to `temp_000.png`, not `temp_000.jpg`. -/
theorem ext_derivation_counterexample :
    ext_of_url "http://h/a.jpg?v=2.png".toList = "png".toList ∧
    spec_ext_of_url "http://h/a.jpg?v=2.png".toList = "jpg".toList ∧
    "png".toList ≠ "jpg".toList ∧
    (download_image (FetchOutcome.resp 200 ⟨50 * 1024, some (500, 800)⟩)
        "http://h/a.jpg?v=2.png".toList 0 "d".toList).2
      = [pjoin "d".toList (temp_filename 0 "png".toList)] := by
  refine ⟨by decide, by decide, by decide, ?_⟩
  rw [download_image_resp, if_neg (by omega), if_neg (by simp [is_valid_example])]
  have hext : chosen_ext "http://h/a.jpg?v=2.png".toList = "png".toList := by decide
  simp only [hext]

/-- Claim C5, amended. For every accepted image the worker writes the bytes to
`destDir/temp_<index zero-padded to 3>.<ext>` and reports that path, where
`ext` is obtained by taking the substring after the last `.` of the full URL
(query string included), truncating it at the first `?`, lower-casing it, and
replacing it with `jpg` whenever it is not in the allow-list
{jpg, jpeg, png, webp, gif}. -/
theorem worker_temp_file_naming (fetch : FetchOutcome) (img_url : Str)
    (img_index : Nat) (chapter_dir : Str) (s : Nat) (c : ImgData)
    (hresp : fetch = FetchOutcome.resp s c) (hst : ¬ (400 ≤ s ∧ s < 600))
    (hvalid : is_valid_manga_image c = true) :
    download_image fetch img_url img_index chapter_dir =
      (⟨img_index,
        some (pjoin chapter_dir (temp_filename img_index (chosen_ext img_url))), true⟩,
       [pjoin chapter_dir (temp_filename img_index (chosen_ext img_url))]) ∧
    chosen_ext img_url =
      (if ext_of_url img_url ∈ allowed_exts then ext_of_url img_url else "jpg".toList) := by
  subst hresp
  refine ⟨?_, rfl⟩
  rw [download_image_resp, if_neg hst, if_neg (by simp [hvalid])]

/-- Witness for `worker_temp_file_naming` at a concrete accepted download. -/
theorem worker_temp_file_naming_witness :
    download_image (FetchOutcome.resp 200 ⟨50 * 1024, some (500, 800)⟩)
        "http://x/p.png".toList 2 "dir".toList =
      (⟨2, some (pjoin "dir".toList
          (temp_filename 2 (chosen_ext "http://x/p.png".toList))), true⟩,
       [pjoin "dir".toList (temp_filename 2 (chosen_ext "http://x/p.png".toList))]) ∧
    chosen_ext "http://x/p.png".toList =
      (if ext_of_url "http://x/p.png".toList ∈ allowed_exts then
        ext_of_url "http://x/p.png".toList else "jpg".toList) :=
  worker_temp_file_naming (FetchOutcome.resp 200 ⟨50 * 1024, some (500, 800)⟩)
    "http://x/p.png".toList 2 "dir".toList 200 ⟨50 * 1024, some (500, 800)⟩
    rfl (by omega) is_valid_example

/-- Claim C3, counterexample. A one-task pool whose image is rejected by the
validator yields an empty collected result set: the collection loop appends a
result only `if result[2]`, so the rejected task's index has no entry at all
rather than an entry with `accepted = false`. -/
theorem pool_collect_drops_rejected :
    collected_results (fun _ => FetchOutcome.resp 200 ⟨0, none⟩) [['u']] [] [0] = [] ∧
    ([['u']] : List Str).length = 1 ∧
    ∀ r ∈ collected_results (fun _ => FetchOutcome.resp 200 ⟨0, none⟩) [['u']] [] [0],
      r.index ≠ 0 := by
  have h0 : collected_results (fun _ => FetchOutcome.resp 200 ⟨0, none⟩) [['u']] [] [0]
      = [] := rfl
  refine ⟨h0, rfl, ?_⟩
  intro r hr
  rw [h0] at hr
  simp at hr

/-- Claim C3, amended. The pool's workers produce exactly one `ImageResult`
per submitted task — for every index one result, none missing, none
duplicated, regardless of the completion order — but the collection loop
keeps only the accepted ones: the collected set is exactly the accepted
subset, and every collected result carries `accepted = true`. -/
theorem pool_exactly_one_result_per_task (env : Nat → FetchOutcome)
    (image_urls : List Str) (chapter_dir : Str) (order : List Nat)
    (hperm : order.Perm (List.range image_urls.length)) :
    (∀ i, i < image_urls.length →
      ((pool_results env image_urls chapter_dir order).filter
        (fun r => r.index == i)).length = 1) ∧
    collected_results env image_urls chapter_dir order =
      (pool_results env image_urls chapter_dir order).filter (fun r => r.accepted) ∧
    (∀ r ∈ collected_results env image_urls chapter_dir order, r.accepted = true) := by
  refine ⟨?_, rfl, ?_⟩
  · intro i hi
    rw [pool_results, List.filter_map, List.length_map]
    have hc : List.filter
          ((fun r : ImageResult => r.index == i) ∘ fun j => (worker env image_urls chapter_dir j).1)
          order
        = List.filter (fun j => j == i) order := by
      apply List.filter_congr
      intro j _
      simp only [Function.comp_apply, worker, download_image_index]
    rw [hc, ← List.countP_eq_length_filter]
    show order.count i = 1
    rw [hperm.count_eq]
    exact List.count_eq_one_of_mem (List.nodup_range _) (List.mem_range.mpr hi)
  · intro r hr
    rw [collected_results] at hr
    exact (List.mem_filter.mp hr).2

/-- Witness for `pool_exactly_one_result_per_task` at a concrete one-task
pool. -/
theorem pool_exactly_one_result_per_task_witness :
    (∀ i, i < ([['u']] : List Str).length →
      ((pool_results (fun _ => FetchOutcome.exn) [['u']] [] [0]).filter
        (fun r => r.index == i)).length = 1) ∧
    collected_results (fun _ => FetchOutcome.exn) [['u']] [] [0] =
      (pool_results (fun _ => FetchOutcome.exn) [['u']] [] [0]).filter
        (fun r => r.accepted) ∧
    (∀ r ∈ collected_results (fun _ => FetchOutcome.exn) [['u']] [] [0],
      r.accepted = true) :=
  pool_exactly_one_result_per_task (fun _ => FetchOutcome.exn) [['u']] [] [0]
    (by decide)

/-- Unfolding equation of `create_cbz` on a successful listing. -/
theorem create_cbz_ok (files : List Str) (zip_ok : Bool) (chapter_dir : Str) :
    create_cbz (.ok files) zip_ok chapter_dir =
      (if ((files.filter (has_image_ext image_exts_cbz)).map (pjoin chapter_dir)).isEmpty
       then (none, [])
       else if zip_ok then
         (some (chapter_dir ++ ".cbz".toList),
          (List.insertionSort (fun a b => strLe a b = true)
            ((files.filter (has_image_ext image_exts_cbz)).map (pjoin chapter_dir))).map
              basename)
       else (none, [])) := rfl

/-- Unfolding equation of `create_pdf` on a successful listing. -/
theorem create_pdf_ok (files : List Str) (open_ok : Bool) (conv : Except Unit Bool)
    (write_ok : Bool) (chapter_dir : Str) :
    create_pdf (.ok files) open_ok conv write_ok chapter_dir =
      (if ((files.filter (has_image_ext image_exts_pdf)).map (pjoin chapter_dir)).isEmpty
       then (none, [])
       else if ¬ open_ok then (none, [])
       else match conv with
         | .error _ => (none, [])
         | .ok truthy =>
           if truthy ∧ ¬ write_ok then (none, [])
           else (some (chapter_dir ++ ".pdf".toList),
             List.insertionSort (fun a b => strLe a b = true)
               ((files.filter (has_image_ext image_exts_pdf)).map (pjoin chapter_dir)))) := rfl

/-- Claim C6. Both converters are total (the embedding returns a value on every
branch, mirroring the catch-all handlers), and return an absent path exactly
when their eligible file set is empty or an I/O or encoding failure occurs;
the PDF converter's eligible extensions are a strict subset of the CBZ
converter's (excluding `.webp` and `.gif`), so a directory holding only
`.webp` pages yields a CBZ but no PDF. -/
theorem converters_absent_iff :
    (∀ files zip_ok dir, (create_cbz (.ok files) zip_ok dir).1 = none ↔
      (files.filter (has_image_ext image_exts_cbz) = [] ∨ zip_ok = false)) ∧
    (∀ zip_ok dir, (create_cbz (.error ()) zip_ok dir).1 = none) ∧
    (∀ files open_ok conv write_ok dir,
      (create_pdf (.ok files) open_ok conv write_ok dir).1 = none ↔
        (files.filter (has_image_ext image_exts_pdf) = [] ∨ open_ok = false ∨
         conv = .error () ∨ (conv = .ok true ∧ write_ok = false))) ∧
    (∀ open_ok conv write_ok dir, (create_pdf (.error ()) open_ok conv write_ok dir).1 = none) ∧
    (∀ f, has_image_ext image_exts_pdf f = true → has_image_ext image_exts_cbz f = true) ∧
    (has_image_ext image_exts_cbz "001.webp".toList = true ∧
     has_image_ext image_exts_pdf "001.webp".toList = false) ∧
    ((create_cbz (.ok ["001.webp".toList]) true "d".toList).1 =
        some ("d".toList ++ ".cbz".toList) ∧
     (create_pdf (.ok ["001.webp".toList]) true (.ok true) true "d".toList).1 = none) := by
  refine ⟨?_, fun z d => rfl, ?_, fun o c w d => rfl, ?_, by decide, by decide, by decide⟩
  · intro files z d
    rw [create_cbz_ok]
    by_cases hf : files.filter (has_image_ext image_exts_cbz) = []
    · simp [hf]
    · cases z <;> simp [hf]
  · intro files o c w d
    rw [create_pdf_ok]
    by_cases hf : files.filter (has_image_ext image_exts_pdf) = []
    · simp [hf]
    · cases o with
      | false => simp [hf]
      | true =>
        cases c with
        | error u =>
          obtain rfl : u = () := rfl
          simp [hf]
        | ok t => cases t <;> cases w <;> simp [hf]
  · intro f h
    rw [has_image_ext, List.any_eq_true] at h ⊢
    obtain ⟨e, he, hs⟩ := h
    have hsub : ∀ e ∈ image_exts_pdf, e ∈ image_exts_cbz := by decide
    exact ⟨e, hsub e he, hs⟩

/-- Witness for `converters_absent_iff`: its extension-subset implication at
a concrete file name. -/
theorem converters_absent_iff_witness :
    has_image_ext image_exts_cbz "001.png".toList = true :=
  converters_absent_iff.2.2.2.2.1 "001.png".toList (by decide)

/-! ### String lemmas for the assembly proof -/

theorem splitOnChar_ne_nil (c : Char) (s : Str) : splitOnChar c s ≠ [] := by
  induction s with
  | nil => simp [splitOnChar]
  | cons x xs ih =>
    cases hsp : splitOnChar c xs with
    | nil => exact absurd hsp ih
    | cons y ys =>
      rw [splitOnChar, hsp]
      by_cases hx : x = c <;> simp [hx]

theorem splitOnChar_cons (c x : Char) (xs : Str) :
    splitOnChar c (x :: xs) =
      match splitOnChar c xs with
      | [] => [[]]
      | y :: ys => if x = c then [] :: y :: ys else (x :: y) :: ys := rfl

theorem splitOnChar_append (c : Char) (a b : Str) :
    splitOnChar c (a ++ c :: b) = splitOnChar c a ++ splitOnChar c b := by
  induction a with
  | nil =>
    rw [List.nil_append, splitOnChar_cons]
    cases hsp : splitOnChar c b with
    | nil => exact absurd hsp (splitOnChar_ne_nil c b)
    | cons y ys => simp [splitOnChar]
  | cons x a ih =>
    rw [List.cons_append, splitOnChar_cons, ih]
    cases hsp : splitOnChar c a with
    | nil => exact absurd hsp (splitOnChar_ne_nil _ _)
    | cons y ys =>
      rw [List.cons_append, splitOnChar_cons, hsp]
      by_cases hx : x = c <;> simp [hx]

theorem splitOnChar_of_not_mem (c : Char) (s : Str) (h : c ∉ s) :
    splitOnChar c s = [s] := by
  induction s with
  | nil => rfl
  | cons x xs ih =>
    have hx : x ≠ c := fun hxc => h (hxc ▸ List.mem_cons_self x xs)
    have hxs : c ∉ xs := fun hc => h (List.mem_cons_of_mem x hc)
    rw [splitOnChar, ih hxs]
    simp [hx]

theorem getLastD_append_right (l₁ l₂ : List Str) (d : Str) (h : l₂ ≠ []) :
    (l₁ ++ l₂).getLastD d = l₂.getLastD d := by
  cases hl : l₂.getLast? with
  | none => exact absurd (List.getLast?_eq_none_iff.mp hl) h
  | some y => simp [List.getLastD_eq_getLast?, List.getLast?_append, hl]

theorem basename_pjoin (dir name : Str) (h : '/' ∉ name) :
    basename (pjoin dir name) = name := by
  rw [basename, pjoin, splitOnChar_append,
    getLastD_append_right _ _ _ (splitOnChar_ne_nil _ _),
    splitOnChar_of_not_mem _ _ h]
  rfl

theorem digitChar_bounds (d : Nat) (h : d < 10) :
    48 ≤ (digitChar d).toNat ∧ (digitChar d).toNat ≤ 57 := by
  interval_cases d <;> decide

theorem natToChars_digits (n : Nat) :
    ∀ ch ∈ natToChars n, 48 ≤ ch.toNat ∧ ch.toNat ≤ 57 := by
  induction n using Nat.strong_induction_on with
  | _ n ih =>
    rw [natToChars]
    by_cases h : n < 10
    · rw [if_pos h]
      intro ch hch
      rw [List.mem_singleton] at hch
      subst hch
      exact digitChar_bounds n h
    · rw [if_neg h]
      intro ch hch
      rw [List.mem_append] at hch
      rcases hch with hch | hch
      · exact ih (n / 10) (Nat.div_lt_self (by omega) (by omega)) ch hch
      · rw [List.mem_singleton] at hch
        subst hch
        exact digitChar_bounds (n % 10) (Nat.mod_lt _ (by omega))

theorem natPad3_chars (n : Nat) :
    ∀ ch ∈ natPad3 n, ch ≠ '.' ∧ ch ≠ '/' := by
  intro ch hch
  rw [natPad3, List.mem_append] at hch
  have hb : 48 ≤ ch.toNat ∧ ch.toNat ≤ 57 := by
    rcases hch with hch | hch
    · rw [List.eq_of_mem_replicate hch]
      decide
    · exact natToChars_digits n ch hch
  constructor <;> rintro rfl <;> revert hb <;> decide

theorem slash_not_mem_temp_filename (i : Nat) (ext : Str) (hext : '/' ∉ ext) :
    '/' ∉ temp_filename i ext := by
  rw [temp_filename]
  intro hmem
  rw [List.mem_append, List.mem_append] at hmem
  rcases hmem with (hmem | hmem) | hmem
  · revert hmem
    decide
  · exact (natPad3_chars i '/' hmem).2 rfl
  · rw [List.mem_cons] at hmem
    rcases hmem with hmem | hmem
    · exact absurd hmem (by decide)
    · exact hext hmem

theorem splitext_ext_temp (dir : Str) (i : Nat) (ext : Str)
    (hdot : '.' ∉ ext) (hslash : '/' ∉ ext) :
    splitext_ext (pjoin dir (temp_filename i ext)) = '.' :: ext := by
  rw [splitext_ext, basename_pjoin dir _ (slash_not_mem_temp_filename i ext hslash)]
  have hshape : temp_filename i ext = ("temp_".toList ++ natPad3 i) ++ '.' :: ext := by
    rw [temp_filename, List.append_assoc]
  rw [hshape, List.reverse_append, List.reverse_cons, List.append_assoc,
    List.singleton_append]
  have hrevdot : '.' ∉ ext.reverse := by
    intro hm
    exact hdot (List.mem_reverse.mp hm)
  have htake : ∀ a ∈ ext.reverse, (a != '.') = true := by
    intro a ha
    simp only [bne_iff_ne, ne_eq]
    rintro rfl
    exact hrevdot ha
  rw [List.takeWhile_append_of_pos htake, List.dropWhile_append_of_pos htake,
    List.takeWhile_cons_of_neg (by simp), List.dropWhile_cons_of_neg (by simp)]
  have hany : (("temp_".toList ++ natPad3 i).reverse.any (fun ch => ch != '.')) = true := by
    rw [List.any_eq_true]
    refine ⟨'t', ?_, by decide⟩
    rw [List.mem_reverse, List.mem_append]
    left
    decide
  simp [hany]

/-- The chosen extension is always one of the five allowed ones (`jpg` being
itself allowed). -/
theorem chosen_ext_mem (u : Str) : chosen_ext u ∈ allowed_exts := by
  rw [chosen_ext]
  by_cases h : ext_of_url u ∈ allowed_exts
  · simp [h]
  · simp only [h, if_false]
    decide

theorem allowed_exts_wf : ∀ e ∈ allowed_exts, e ≠ [] ∧ '.' ∉ e ∧ '/' ∉ e := by
  decide

/-! ### The renaming loop -/

theorem removeFile_cons_head (p : Str) (l : List Str) : removeFile (p :: l) p = l := by
  simp [removeFile]

theorem removeFile_append_left (l₁ l₂ : List Str) (p : Str) (h : p ∈ l₁) :
    removeFile (l₁ ++ l₂) p = removeFile l₁ p ++ l₂ := by
  induction l₁ with
  | nil => simp at h
  | cons f fs ih =>
    rw [List.cons_append, removeFile, removeFile]
    by_cases hf : f = p
    · simp [hf]
    · rw [if_neg hf, if_neg hf, List.cons_append]
      congr 1
      apply ih
      rcases List.mem_cons.mp h with h | h
      · exact absurd h.symm hf
      · exact h

theorem perm_removeFile (p : Str) {l₁ l₂ : List Str} (h : l₁.Perm l₂) :
    (removeFile l₁ p).Perm (removeFile l₂ p) := by
  induction h with
  | nil => exact List.Perm.refl _
  | cons x h ih =>
    rw [removeFile, removeFile]
    by_cases hx : x = p
    · simpa [hx] using h
    · simpa [hx] using ih
  | swap x y l =>
    rw [removeFile, removeFile]
    by_cases hy : y = p
    · by_cases hx : x = p
      · simp [hx, hy, removeFile]
      · simp [hx, hy, removeFile]
    · by_cases hx : x = p
      · simp [hx, hy, removeFile]
      · simp only [if_neg hy, if_neg hx, removeFile]
        exact List.Perm.swap _ _ _
  | trans h₁ h₂ ih₁ ih₂ => exact ih₁.trans ih₂

theorem rename_step_some (chapter_dir : Str) (files : List Str) (count : Nat)
    (r : ImageResult) (p : Str) (hp : r.path = some p) (hne : p ≠ []) :
    rename_step chapter_dir (files, count) r =
      (removeFile files p ++ [pjoin chapter_dir (natPad3 (count + 1) ++ splitext_ext p)],
       count + 1) := by
  simp only [rename_step, hp]
  simp [hne]

/-- Running the renaming fold over results whose paths are exactly (a
permutation of) the `front` part of the file list erases every temp file and
appends the sequential final names after `fin`. -/
theorem foldl_rename_eq (chapter_dir : Str) (rs : List ImageResult) :
    ∀ (front fin : List Str) (count : Nat),
      (∀ r ∈ rs, ∃ p, r.path = some p ∧ p ≠ []) →
      front.Perm (rs.filterMap (fun r => r.path)) →
      rs.foldl (rename_step chapter_dir) (front ++ fin, count)
        = (fin ++ finalsFrom chapter_dir count rs, count + rs.length) := by
  induction rs with
  | nil =>
    intro front fin count _ hperm
    rw [List.filterMap_nil, List.perm_nil] at hperm
    subst hperm
    simp [finalsFrom]
  | cons r rs ih =>
    intro front fin count hpaths hperm
    obtain ⟨p, hp, hpne⟩ := hpaths r (List.mem_cons_self r rs)
    have hfm : (r :: rs).filterMap (fun r => r.path)
        = p :: rs.filterMap (fun r => r.path) := by
      rw [List.filterMap_cons, hp]
    rw [hfm] at hperm
    have hpf : p ∈ front := hperm.mem_iff.mpr (List.mem_cons_self _ _)
    rw [List.foldl_cons, rename_step_some chapter_dir (front ++ fin) count r p hp hpne,
      removeFile_append_left _ _ _ hpf, List.append_assoc]
    have hperm' : (removeFile front p).Perm (rs.filterMap (fun r => r.path)) := by
      have h1 := perm_removeFile p hperm
      rwa [removeFile_cons_head] at h1
    rw [ih (removeFile front p)
      (fin ++ [pjoin chapter_dir (natPad3 (count + 1) ++ splitext_ext p)]) (count + 1)
      (fun r' hr' => hpaths r' (List.mem_cons_of_mem r hr')) hperm']
    rw [finalsFrom, hp, Option.getD_some, List.append_assoc, List.singleton_append,
      List.length_cons]
    exact Prod.ext rfl (by omega)

/-- A `filterMap` is a `map` on lists where the function is pointwise `some`. -/
theorem filterMap_eq_map_of_mem {α β : Type} (l : List α) (f : α → Option β)
    (g : α → β) (h : ∀ a ∈ l, f a = some (g a)) : l.filterMap f = l.map g := by
  induction l with
  | nil => rfl
  | cons a l ih =>
    rw [List.filterMap_cons, h a (List.mem_cons_self a l), List.map_cons,
      ih (fun a' ha' => h a' (List.mem_cons_of_mem a ha'))]

/-! ### The pool and the sort -/

instance : IsTotal ImageResult (fun a b => a.index ≤ b.index) :=
  ⟨fun a b => Nat.le_total a.index b.index⟩

instance : IsTrans ImageResult (fun a b => a.index ≤ b.index) :=
  ⟨fun _ _ _ hab hbc => Nat.le_trans hab hbc⟩

instance : IsAntisymm ImageResult (fun a b => a.index < b.index) :=
  ⟨fun _ _ h1 h2 => absurd (Nat.lt_trans h1 h2) (Nat.lt_irrefl _)⟩

theorem worker_eq (env : Nat → FetchOutcome) (urls : List Str) (dir : Str) (i : Nat) :
    worker env urls dir i = download_image (env i) (urls.getD i []) i dir := rfl

theorem worker_index (env : Nat → FetchOutcome) (urls : List Str) (dir : Str) (i : Nat) :
    ((worker env urls dir i).1).index = i :=
  download_image_index _ _ _ _

theorem worker_accepted_eq (env : Nat → FetchOutcome) (urls : List Str) (dir : Str)
    (i : Nat) (h : ((worker env urls dir i).1).accepted = true) :
    worker env urls dir i =
      (⟨i, some (pjoin dir (temp_filename i (chosen_ext (urls.getD i [])))), true⟩,
       [pjoin dir (temp_filename i (chosen_ext (urls.getD i [])))]) :=
  download_image_of_accepted (env i) (urls.getD i []) i dir h

theorem worker_not_accepted_eq (env : Nat → FetchOutcome) (urls : List Str) (dir : Str)
    (i : Nat) (h : ((worker env urls dir i).1).accepted = false) :
    worker env urls dir i = (⟨i, none, false⟩, []) :=
  download_image_of_not_accepted (env i) (urls.getD i []) i dir h

theorem pool_results_pairwise_ne (env : Nat → FetchOutcome) (urls : List Str)
    (dir : Str) (order : List Nat) (hnd : order.Nodup) :
    (pool_results env urls dir order).Pairwise (fun a b => a.index ≠ b.index) := by
  rw [pool_results, List.pairwise_map]
  refine hnd.imp ?_
  intro a b hab
  rw [worker_index, worker_index]
  exact hab

theorem collected_pairwise_ne (env : Nat → FetchOutcome) (urls : List Str)
    (dir : Str) (order : List Nat) (hnd : order.Nodup) :
    (collected_results env urls dir order).Pairwise (fun a b => a.index ≠ b.index) :=
  (pool_results_pairwise_ne env urls dir order hnd).filter _

theorem canonical_collected (env : Nat → FetchOutcome) (urls : List Str) (dir : Str) :
    collected_results env urls dir (List.range urls.length)
      = ((List.range urls.length).filter
          (fun i => ((worker env urls dir i).1).accepted)).map
          (fun i => (worker env urls dir i).1) := by
  rw [collected_results, pool_results, List.filter_map]
  rfl

theorem canonical_sorted_le (env : Nat → FetchOutcome) (urls : List Str) (dir : Str) :
    List.Sorted (fun a b : ImageResult => a.index ≤ b.index)
      (collected_results env urls dir (List.range urls.length)) := by
  rw [canonical_collected, List.Sorted, List.pairwise_map]
  refine ((List.pairwise_lt_range urls.length).filter _).imp ?_
  intro a b hab
  rw [worker_index, worker_index]
  exact Nat.le_of_lt hab

theorem sorted_lt_of_le_ne (l : List ImageResult)
    (h1 : l.Sorted (fun a b => a.index ≤ b.index))
    (h2 : l.Pairwise (fun a b => a.index ≠ b.index)) :
    l.Sorted (fun a b => a.index < b.index) :=
  (List.Pairwise.and h1 h2).imp (fun h => Nat.lt_of_le_of_ne h.1 h.2)

/-- Sorting the collected results of any completion order gives back the
canonical (submission-order) collected list: the post-hoc sort erases the
schedule. -/
theorem sorted_collected_eq (env : Nat → FetchOutcome) (urls : List Str) (dir : Str)
    (order : List Nat) (hperm : order.Perm (List.range urls.length)) :
    List.insertionSort (fun a b : ImageResult => a.index ≤ b.index)
        (collected_results env urls dir order)
      = collected_results env urls dir (List.range urls.length) := by
  have hnd : order.Nodup := hperm.nodup_iff.mpr (List.nodup_range urls.length)
  have hp : (List.insertionSort (fun a b : ImageResult => a.index ≤ b.index)
        (collected_results env urls dir order)).Perm
      (collected_results env urls dir (List.range urls.length)) :=
    (List.perm_insertionSort _ _).trans ((hperm.map _).filter _)
  have hs1 : (List.insertionSort (fun a b : ImageResult => a.index ≤ b.index)
      (collected_results env urls dir order)).Sorted
      (fun a b => a.index < b.index) := by
    refine sorted_lt_of_le_ne _ (List.sorted_insertionSort _ _) ?_
    refine ((List.perm_insertionSort _ _).pairwise_iff ?_).mpr
      (collected_pairwise_ne env urls dir order hnd)
    intro x y hxy
    exact hxy.symm
  have hs2 : (collected_results env urls dir (List.range urls.length)).Sorted
      (fun a b => a.index < b.index) := by
    refine sorted_lt_of_le_ne _ (canonical_sorted_le env urls dir) ?_
    exact collected_pairwise_ne env urls dir _
      ((List.Perm.refl _).nodup_iff.mpr (List.nodup_range urls.length))
  exact List.eq_of_perm_of_sorted hp hs1 hs2

theorem writes_flatten (env : Nat → FetchOutcome) (urls : List Str) (dir : Str)
    (l : List Nat) :
    (l.map (fun i => (worker env urls dir i).2)).flatten
      = (l.filter (fun i => ((worker env urls dir i).1).accepted)).map
          (fun i => pjoin dir (temp_filename i (chosen_ext (urls.getD i [])))) := by
  induction l with
  | nil => rfl
  | cons i l ih =>
    rw [List.map_cons, List.flatten_cons, ih, List.filter_cons]
    by_cases hacc : ((worker env urls dir i).1).accepted = true
    · rw [if_pos (by rw [hacc]), List.map_cons,
        congrArg Prod.snd (worker_accepted_eq env urls dir i hacc),
        List.singleton_append]
    · rw [if_neg (by simpa using hacc),
        congrArg Prod.snd
          (worker_not_accepted_eq env urls dir i (Bool.eq_false_iff.mpr hacc)),
        List.nil_append]

theorem pool_writes_canonical (env : Nat → FetchOutcome) (urls : List Str)
    (dir : Str) (order : List Nat) (hperm : order.Perm (List.range urls.length)) :
    (pool_writes env urls dir order).Perm
      (((List.range urls.length).filter
          (fun i => ((worker env urls dir i).1).accepted)).map
        (fun i => pjoin dir (temp_filename i (chosen_ext (urls.getD i []))))) := by
  rw [pool_writes, ← writes_flatten]
  exact (hperm.map _).flatten

theorem finalsFrom_map_worker (env : Nat → FetchOutcome) (urls : List Str) (dir : Str)
    (is : List Nat) :
    ∀ (count : Nat), (∀ i ∈ is, ((worker env urls dir i).1).accepted = true) →
      finalsFrom dir count (is.map (fun i => (worker env urls dir i).1))
        = finalNamesFrom dir urls count is := by
  induction is with
  | nil => intro count _; rfl
  | cons i is ih =>
    intro count hacc
    have hpath : ((worker env urls dir i).1).path
        = some (pjoin dir (temp_filename i (chosen_ext (urls.getD i [])))) := by
      rw [worker_accepted_eq env urls dir i (hacc i (List.mem_cons_self _ _))]
    have hext := splitext_ext_temp dir i (chosen_ext (urls.getD i []))
      (allowed_exts_wf _ (chosen_ext_mem _)).2.1
      (allowed_exts_wf _ (chosen_ext_mem _)).2.2
    rw [List.map_cons, finalsFrom, finalNamesFrom, hpath, Option.getD_some, hext]
    exact congrArg _ (ih (count + 1) (fun j hj => hacc j (List.mem_cons_of_mem _ hj)))

/-! ### The chapter assembly -/

theorem download_chapter_nil (env : Nat → FetchOutcome) (K : Nat) (order : List Nat)
    (chapter_dir : Str) :
    download_chapter [] env K order chapter_dir =
      { directory := chapter_dir, success := false, acceptedCount := 0,
        files := [pjoin chapter_dir debug_page_name] } := rfl

theorem download_chapter_ne (image_elements : List (Option Str))
    (env : Nat → FetchOutcome) (K : Nat) (order : List Nat) (chapter_dir : Str)
    (h : image_elements ≠ []) :
    download_chapter image_elements env K order chapter_dir =
      { directory := chapter_dir,
        success := decide (0 <
          ((List.insertionSort (fun a b : ImageResult => a.index ≤ b.index)
              (collected_results env (chapterUrls image_elements) chapter_dir order)).foldl
            (rename_step chapter_dir)
            (pool_writes env (chapterUrls image_elements) chapter_dir order, 0)).2),
        acceptedCount :=
          ((List.insertionSort (fun a b : ImageResult => a.index ≤ b.index)
              (collected_results env (chapterUrls image_elements) chapter_dir order)).foldl
            (rename_step chapter_dir)
            (pool_writes env (chapterUrls image_elements) chapter_dir order, 0)).2,
        files :=
          ((List.insertionSort (fun a b : ImageResult => a.index ≤ b.index)
              (collected_results env (chapterUrls image_elements) chapter_dir order)).foldl
            (rename_step chapter_dir)
            (pool_writes env (chapterUrls image_elements) chapter_dir order, 0)).1 } := by
  rw [download_chapter, if_neg (by simp [h])]

/-- Closed form of a chapter run: for every completion order (a permutation
of the task indices) and every pool bound, the run returns the canonical
outcome determined solely by which tasks are accepted — `acceptedCount` is
the number of accepted indices and the directory holds exactly the final
names `001..` in ascending accepted-index order, each with its URL's chosen
extension. -/
theorem download_chapter_closed_form (image_elements : List (Option Str))
    (env : Nat → FetchOutcome) (K : Nat) (order : List Nat) (chapter_dir : Str)
    (hne : image_elements ≠ [])
    (hperm : order.Perm (List.range (chapterUrls image_elements).length)) :
    download_chapter image_elements env K order chapter_dir =
      { directory := chapter_dir,
        success := decide (0 <
          ((List.range (chapterUrls image_elements).length).filter (fun i =>
            ((worker env (chapterUrls image_elements) chapter_dir i).1).accepted)).length),
        acceptedCount :=
          ((List.range (chapterUrls image_elements).length).filter (fun i =>
            ((worker env (chapterUrls image_elements) chapter_dir i).1).accepted)).length,
        files := finalNamesFrom chapter_dir (chapterUrls image_elements) 0
          ((List.range (chapterUrls image_elements).length).filter (fun i =>
            ((worker env (chapterUrls image_elements) chapter_dir i).1).accepted)) } := by
  rw [download_chapter_ne image_elements env K order chapter_dir hne,
    sorted_collected_eq env (chapterUrls image_elements) chapter_dir order hperm,
    canonical_collected env (chapterUrls image_elements) chapter_dir]
  have hacc : ∀ i ∈ (List.range (chapterUrls image_elements).length).filter (fun i =>
      ((worker env (chapterUrls image_elements) chapter_dir i).1).accepted),
      ((worker env (chapterUrls image_elements) chapter_dir i).1).accepted = true :=
    fun i hi => (List.mem_filter.mp hi).2
  have hpaths : ∀ r ∈ ((List.range (chapterUrls image_elements).length).filter (fun i =>
      ((worker env (chapterUrls image_elements) chapter_dir i).1).accepted)).map
        (fun i => (worker env (chapterUrls image_elements) chapter_dir i).1),
      ∃ p, r.path = some p ∧ p ≠ [] := by
    intro r hr
    obtain ⟨i, hi, rfl⟩ := List.mem_map.mp hr
    refine ⟨pjoin chapter_dir
      (temp_filename i (chosen_ext ((chapterUrls image_elements).getD i []))), ?_, ?_⟩
    · rw [worker_accepted_eq env (chapterUrls image_elements) chapter_dir i (hacc i hi)]
    · simp [pjoin]
  have hfmS : (((List.range (chapterUrls image_elements).length).filter (fun i =>
        ((worker env (chapterUrls image_elements) chapter_dir i).1).accepted)).map
        (fun i => (worker env (chapterUrls image_elements) chapter_dir i).1)).filterMap
        (fun r => r.path)
      = ((List.range (chapterUrls image_elements).length).filter (fun i =>
        ((worker env (chapterUrls image_elements) chapter_dir i).1).accepted)).map
        (fun i => pjoin chapter_dir
          (temp_filename i (chosen_ext ((chapterUrls image_elements).getD i [])))) := by
    rw [List.filterMap_map]
    refine filterMap_eq_map_of_mem _ _ _ ?_
    intro i hi
    show ((worker env (chapterUrls image_elements) chapter_dir i).1).path = _
    rw [worker_accepted_eq env (chapterUrls image_elements) chapter_dir i (hacc i hi)]
  have hfront : (pool_writes env (chapterUrls image_elements) chapter_dir order).Perm
      ((((List.range (chapterUrls image_elements).length).filter (fun i =>
        ((worker env (chapterUrls image_elements) chapter_dir i).1).accepted)).map
        (fun i => (worker env (chapterUrls image_elements) chapter_dir i).1)).filterMap
        (fun r => r.path)) := by
    rw [hfmS]
    exact pool_writes_canonical env (chapterUrls image_elements) chapter_dir order hperm
  rw [show pool_writes env (chapterUrls image_elements) chapter_dir order
      = pool_writes env (chapterUrls image_elements) chapter_dir order ++ [] from
      (List.append_nil _).symm]
  rw [foldl_rename_eq chapter_dir _ _ [] 0 hpaths hfront]
  rw [List.nil_append, Nat.zero_add, List.length_map]
  rw [finalsFrom_map_worker env (chapterUrls image_elements) chapter_dir _ 0 hacc]

/-- Claim C1. For a chapter with image tasks built from the discovered
elements, of which `a` are accepted, the assembled directory holds exactly
the final names `001 .. a` (3-digit zero-padded, each keeping its temp
file's extension, i.e. the URL's chosen extension), assigned in ascending
order of the accepted tasks' original indices with no gaps; and the whole
outcome — directory, success flag, `acceptedCount`, file set — is identical
for every completion order of the concurrent fetches and for every pool
bound `K`, since the bound's only observable effect is which completion
order occurs. -/
theorem chapter_assembly_deterministic (image_elements : List (Option Str))
    (env : Nat → FetchOutcome) (K K' : Nat) (order : List Nat) (chapter_dir : Str)
    (hne : image_elements ≠ [])
    (hperm : order.Perm (List.range (chapterUrls image_elements).length)) :
    (download_chapter image_elements env K order chapter_dir).acceptedCount =
      ((List.range (chapterUrls image_elements).length).filter (fun i =>
        ((worker env (chapterUrls image_elements) chapter_dir i).1).accepted)).length ∧
    (download_chapter image_elements env K order chapter_dir).files =
      finalNamesFrom chapter_dir (chapterUrls image_elements) 0
        ((List.range (chapterUrls image_elements).length).filter (fun i =>
          ((worker env (chapterUrls image_elements) chapter_dir i).1).accepted)) ∧
    download_chapter image_elements env K order chapter_dir =
      download_chapter image_elements env K'
        (List.range (chapterUrls image_elements).length) chapter_dir := by
  rw [download_chapter_closed_form image_elements env K order chapter_dir hne hperm,
    download_chapter_closed_form image_elements env K'
      (List.range (chapterUrls image_elements).length) chapter_dir hne (List.Perm.refl _)]
  exact ⟨rfl, rfl, rfl⟩

/-- Witness for `chapter_assembly_deterministic`: a two-task chapter run with
reversed completion order and pool bounds 8 and 1. -/
theorem chapter_assembly_deterministic_witness :
    (download_chapter [some "u1".toList, some "u2".toList] (fun _ => FetchOutcome.exn)
      8 [1, 0] "downloads/ch".toList).acceptedCount =
      ((List.range (chapterUrls [some "u1".toList, some "u2".toList]).length).filter
        (fun i => ((worker (fun _ => FetchOutcome.exn)
          (chapterUrls [some "u1".toList, some "u2".toList])
          "downloads/ch".toList i).1).accepted)).length ∧
    (download_chapter [some "u1".toList, some "u2".toList] (fun _ => FetchOutcome.exn)
      8 [1, 0] "downloads/ch".toList).files =
      finalNamesFrom "downloads/ch".toList
        (chapterUrls [some "u1".toList, some "u2".toList]) 0
        ((List.range (chapterUrls [some "u1".toList, some "u2".toList]).length).filter
          (fun i => ((worker (fun _ => FetchOutcome.exn)
            (chapterUrls [some "u1".toList, some "u2".toList])
            "downloads/ch".toList i).1).accepted)) ∧
    download_chapter [some "u1".toList, some "u2".toList] (fun _ => FetchOutcome.exn)
      8 [1, 0] "downloads/ch".toList =
      download_chapter [some "u1".toList, some "u2".toList] (fun _ => FetchOutcome.exn)
      1 (List.range (chapterUrls [some "u1".toList, some "u2".toList]).length)
      "downloads/ch".toList :=
  chapter_assembly_deterministic [some "u1".toList, some "u2".toList]
    (fun _ => FetchOutcome.exn) 8 1 [1, 0] "downloads/ch".toList
    (by decide) (by decide)

/-- Claim C8, counterexample. A chapter whose element discovery comes back
empty (hence whose image-URL list is empty) does create a file: the code
dumps `debug_page.html` into the chapter directory before returning the
failed outcome, contradicting the claim that no file is created. -/
theorem empty_chapter_writes_debug_dump :
    chapterUrls [] = [] ∧
    (download_chapter [] (fun _ => FetchOutcome.exn) 1 [] "downloads/ch".toList).success
      = false ∧
    (download_chapter [] (fun _ => FetchOutcome.exn) 1 []
      "downloads/ch".toList).acceptedCount = 0 ∧
    (download_chapter [] (fun _ => FetchOutcome.exn) 1 [] "downloads/ch".toList).files
      ≠ [] := by
  refine ⟨rfl, rfl, rfl, ?_⟩
  rw [download_chapter_nil]
  simp

/-- Claim C8, amended. When no image elements are discovered, the run returns
`success = false`, `acceptedCount = 0` and writes exactly the
`debug_page.html` dump into the chapter directory; when elements exist but
the extracted image-URL list is empty, the run returns `success = false`,
`acceptedCount = 0` and creates no files beyond the chapter directory. -/
theorem chapter_empty_url_list_outcome (image_elements : List (Option Str))
    (env : Nat → FetchOutcome) (K : Nat) (order : List Nat) (chapter_dir : Str) :
    (image_elements = [] →
      download_chapter image_elements env K order chapter_dir =
        { directory := chapter_dir, success := false, acceptedCount := 0,
          files := [pjoin chapter_dir debug_page_name] }) ∧
    (image_elements ≠ [] →
      order.Perm (List.range (chapterUrls image_elements).length) →
      chapterUrls image_elements = [] →
      download_chapter image_elements env K order chapter_dir =
        { directory := chapter_dir, success := false, acceptedCount := 0,
          files := [] }) := by
  constructor
  · rintro rfl
    exact download_chapter_nil env K order chapter_dir
  · intro hne hperm hurls
    rw [download_chapter_closed_form image_elements env K order chapter_dir hne hperm]
    rw [hurls]
    simp [finalNamesFrom]

/-- Witness for `chapter_empty_url_list_outcome`: a chapter whose single
element has an empty `src` (so the URL list is empty). -/
theorem chapter_empty_url_list_outcome_witness :
    download_chapter [some []] (fun _ => FetchOutcome.exn) 1 [] "d".toList =
      { directory := "d".toList, success := false, acceptedCount := 0,
        files := [] } :=
  (chapter_empty_url_list_outcome [some []] (fun _ => FetchOutcome.exn) 1 []
    "d".toList).2 (by decide) (by decide) (by decide)

/-! ### The GUI job: conversion-stage lemmas -/

theorem conv_inner_nil (ds : Bool) (label : ConvLabel) (co ro : ConvLabel → Nat → Bool)
    (base sp total idx : Nat) (st : ConvState) :
    conv_inner ds label co ro base sp total idx [] st = (st, []) := rfl

theorem conv_inner_cons (ds : Bool) (label : ConvLabel)
    (co ro : ConvLabel → Nat → Bool) (base sp total idx ch : Nat) (rest : List Nat)
    (st : ConvState) :
    conv_inner ds label co ro base sp total idx (ch :: rest) st =
      if label = ConvLabel.pdf ∧ ¬ st.dirs ch then
        conv_inner ds label co ro base sp total (idx + 1) rest st
      else
        ((conv_inner ds label co ro base sp total (idx + 1) rest
            (conv_apply ds label co ro st ch)).1,
         min 95 (base + idx * sp / max 1 total) ::
           (conv_inner ds label co ro base sp total (idx + 1) rest
             (conv_apply ds label co ro st ch)).2) := rfl

theorem conv_emit_mono (base sp total idx : Nat) :
    min 95 (base + idx * sp / max 1 total)
      ≤ min 95 (base + (idx + 1) * sp / max 1 total) :=
  min_le_min (le_refl 95)
    (Nat.add_le_add_left
      (Nat.div_le_div_right (Nat.mul_le_mul_right sp (Nat.le_succ idx))) base)

/-- Emissions of one conversion phase: sorted, and each bounded between the
counter's own value and `min 95 (base + span)`. -/
theorem conv_inner_emits_spec (ds : Bool) (label : ConvLabel)
    (co ro : ConvLabel → Nat → Bool) (base sp total : Nat) (chs : List Nat) :
    ∀ (idx : Nat) (st : ConvState), 1 ≤ idx → idx + chs.length ≤ total + 1 →
      List.Sorted (· ≤ ·) (conv_inner ds label co ro base sp total idx chs st).2 ∧
      ∀ e ∈ (conv_inner ds label co ro base sp total idx chs st).2,
        min 95 (base + idx * sp / max 1 total) ≤ e ∧ e ≤ min 95 (base + sp) := by
  induction chs with
  | nil =>
    intro idx st _ _
    rw [conv_inner_nil]
    exact ⟨List.sorted_nil, by simp⟩
  | cons ch rest ih =>
    intro idx st hidx htot
    rw [conv_inner_cons]
    rw [List.length_cons] at htot
    have htot' : idx + 1 + rest.length ≤ total + 1 := by omega
    by_cases hskip : label = ConvLabel.pdf ∧ ¬ st.dirs ch
    · rw [if_pos hskip]
      obtain ⟨hs, hb⟩ := ih (idx + 1) st (by omega) htot'
      refine ⟨hs, fun e he => ?_⟩
      obtain ⟨hb1, hb2⟩ := hb e he
      exact ⟨le_trans (conv_emit_mono base sp total idx) hb1, hb2⟩
    · rw [if_neg hskip]
      obtain ⟨hs, hb⟩ := ih (idx + 1) (conv_apply ds label co ro st ch) (by omega) htot'
      have hidxtot : idx ≤ total := by omega
      have htotpos : 1 ≤ total := le_trans hidx hidxtot
      have hup : idx * sp / max 1 total ≤ sp := by
        rw [Nat.max_eq_right htotpos]
        calc idx * sp / total ≤ total * sp / total :=
              Nat.div_le_div_right (Nat.mul_le_mul_right sp hidxtot)
          _ = sp := by rw [Nat.mul_comm, Nat.mul_div_cancel _ htotpos]
      constructor
      · rw [List.sorted_cons]
        refine ⟨fun b hb' => ?_, hs⟩
        exact le_trans (conv_emit_mono base sp total idx) (hb b hb').1
      · intro e he
        rw [List.mem_cons] at he
        rcases he with rfl | he
        · exact ⟨le_refl _, min_le_min (le_refl 95) (Nat.add_le_add_left hup base)⟩
        · obtain ⟨hb1, hb2⟩ := hb e he
          exact ⟨le_trans (conv_emit_mono base sp total idx) hb1, hb2⟩

theorem conv_apply_dirs_false (ds : Bool) (label : ConvLabel)
    (co ro : ConvLabel → Nat → Bool) (st : ConvState) (ch x : Nat)
    (h : st.dirs x = false) :
    (conv_apply ds label co ro st ch).dirs x = false := by
  by_cases hc : co label ch
  · by_cases hd : ds ∧ st.dirs ch ∧ ro label ch
    · by_cases hx : x = ch <;> simp [conv_apply, hc, hd, hx, h]
    · simp [conv_apply, hc, hd, h]
  · simp [conv_apply, hc, h]

theorem conv_inner_dirs_false (ds : Bool) (label : ConvLabel)
    (co ro : ConvLabel → Nat → Bool) (base sp total : Nat) (chs : List Nat) :
    ∀ (idx : Nat) (st : ConvState) (x : Nat), st.dirs x = false →
      ((conv_inner ds label co ro base sp total idx chs st).1).dirs x = false := by
  induction chs with
  | nil =>
    intro idx st x h
    rw [conv_inner_nil]
    exact h
  | cons ch rest ih =>
    intro idx st x h
    rw [conv_inner_cons]
    by_cases hskip : label = ConvLabel.pdf ∧ ¬ st.dirs ch
    · rw [if_pos hskip]
      exact ih _ _ _ h
    · rw [if_neg hskip]
      exact ih _ _ _ (conv_apply_dirs_false ds label co ro st ch x h)

/-- In the CBZ phase with cleanup requested, a chapter whose conversion and
removal both succeed has its directory deleted by the end of the phase. -/
theorem conv_inner_cbz_deletes (co ro : ConvLabel → Nat → Bool)
    (base sp total : Nat) (chs : List Nat) :
    ∀ (idx : Nat) (st : ConvState) (x : Nat), x ∈ chs →
      co ConvLabel.cbz x = true → ro ConvLabel.cbz x = true →
      ((conv_inner true ConvLabel.cbz co ro base sp total idx chs st).1).dirs x
        = false := by
  induction chs with
  | nil =>
    intro idx st x hx
    simp at hx
  | cons ch rest ih =>
    intro idx st x hx hco hro
    rw [conv_inner_cons, if_neg (by simp)]
    rcases List.mem_cons.mp hx with rfl | hx'
    · by_cases hdirs : st.dirs x = true
      · exact conv_inner_dirs_false true ConvLabel.cbz co ro base sp total rest _ _ x
          (by simp [conv_apply, hco, hdirs, hro])
      · have hf : st.dirs x = false := by
          revert hdirs
          cases st.dirs x <;> simp
        exact conv_inner_dirs_false true ConvLabel.cbz co ro base sp total rest _ _ x
          (conv_apply_dirs_false true ConvLabel.cbz co ro st x x hf)
    · exact ih _ _ x hx' hco hro

theorem conv_inner_produced_subset (ds : Bool) (label : ConvLabel)
    (co ro : ConvLabel → Nat → Bool) (base sp total : Nat) (chs : List Nat) :
    ∀ (idx : Nat) (st : ConvState) (pr : ConvLabel × Nat),
      pr ∈ ((conv_inner ds label co ro base sp total idx chs st).1).produced →
      pr ∈ st.produced ∨ pr.1 = label := by
  induction chs with
  | nil =>
    intro idx st pr h
    rw [conv_inner_nil] at h
    exact Or.inl h
  | cons ch rest ih =>
    intro idx st pr h
    rw [conv_inner_cons] at h
    by_cases hskip : label = ConvLabel.pdf ∧ ¬ st.dirs ch
    · rw [if_pos hskip] at h
      exact ih _ _ _ h
    · rw [if_neg hskip] at h
      rcases ih _ _ _ h with h' | h'
      · by_cases hc : co label ch
        · rw [conv_apply, if_pos hc] at h'
          rcases List.mem_append.mp h' with h'' | h''
          · exact Or.inl h''
          · rw [List.mem_singleton] at h''
            subst h''
            exact Or.inr rfl
        · rw [conv_apply, if_neg hc] at h'
          exact Or.inl h'
      · exact Or.inr h'

/-- In the PDF phase, a chapter whose directory is already gone is skipped:
no PDF entry for it is ever produced. -/
theorem conv_inner_pdf_skips (ds : Bool) (co ro : ConvLabel → Nat → Bool)
    (base sp total : Nat) (chs : List Nat) :
    ∀ (idx : Nat) (st : ConvState) (x : Nat), st.dirs x = false →
      (ConvLabel.pdf, x) ∉ st.produced →
      (ConvLabel.pdf, x) ∉
        ((conv_inner ds ConvLabel.pdf co ro base sp total idx chs st).1).produced := by
  induction chs with
  | nil =>
    intro idx st x hdx hpr
    rw [conv_inner_nil]
    exact hpr
  | cons ch rest ih =>
    intro idx st x hdx hpr
    rw [conv_inner_cons]
    by_cases hd : st.dirs ch = true
    · rw [if_neg (by simp [hd])]
      have hne : ch ≠ x := by
        rintro rfl
        rw [hdx] at hd
        exact Bool.noConfusion hd
      have hpr' : (ConvLabel.pdf, x) ∉ (conv_apply ds ConvLabel.pdf co ro st ch).produced := by
        by_cases hc : co ConvLabel.pdf ch
        · simp [conv_apply, hc, hpr, Ne.symm hne]
        · simp [conv_apply, hc, hpr]
      exact ih _ _ x (conv_apply_dirs_false ds ConvLabel.pdf co ro st ch x hdx) hpr'
    · rw [if_pos ⟨rfl, by simp [hd]⟩]
      exact ih _ _ x hdx hpr

theorem conv_outer_nil (ds : Bool) (co ro : ConvLabel → Nat → Bool)
    (nc total : Nat) (succ : List Nat) (phase : Nat) (st : ConvState) :
    conv_outer ds co ro nc total succ phase [] st = (st, []) := rfl

theorem conv_outer_cons (ds : Bool) (co ro : ConvLabel → Nat → Bool)
    (nc total : Nat) (succ : List Nat) (phase : Nat) (label : ConvLabel)
    (rest : List ConvLabel) (st : ConvState) :
    conv_outer ds co ro nc total succ phase (label :: rest) st =
      ((conv_outer ds co ro nc total succ (phase + 1) rest
          (conv_inner ds label co ro (60 + (phase - 1) * conv_span nc)
            (conv_span nc) total 1 succ st).1).1,
       (conv_inner ds label co ro (60 + (phase - 1) * conv_span nc)
          (conv_span nc) total 1 succ st).2 ::
        (conv_outer ds co ro nc total succ (phase + 1) rest
          (conv_inner ds label co ro (60 + (phase - 1) * conv_span nc)
            (conv_span nc) total 1 succ st).1).2) := rfl

theorem fetch_emits_sorted (threaded : Bool) (n : Nat) :
    List.Sorted (· ≤ ·) (fetch_emits threaded n) := by
  cases threaded with
  | true => simp [fetch_emits]
  | false =>
    rw [fetch_emits, if_neg (by simp)]
    refine List.Pairwise.map _ ?_ (List.pairwise_lt_range n)
    intro a b hab
    exact Nat.div_le_div_right (Nat.mul_le_mul_right 60 (by omega))

theorem fetch_emits_le (threaded : Bool) (n : Nat) :
    ∀ e ∈ fetch_emits threaded n, e ≤ 60 := by
  cases threaded with
  | true => simp [fetch_emits]
  | false =>
    rw [fetch_emits, if_neg (by simp)]
    intro e he
    obtain ⟨k, hk, rfl⟩ := List.mem_map.mp he
    rw [List.mem_range] at hk
    calc (k + 1) * 60 / n ≤ n * 60 / n :=
          Nat.div_le_div_right (Nat.mul_le_mul_right 60 (by omega))
      _ ≤ 60 := by
          rcases Nat.eq_zero_or_pos n with rfl | hpos
          · simp
          · rw [Nat.mul_comm, Nat.mul_div_cancel _ hpos]

theorem sorted_append_le (l₁ l₂ : List Nat) (h₁ : List.Sorted (· ≤ ·) l₁)
    (h₂ : List.Sorted (· ≤ ·) l₂) (h : ∀ a ∈ l₁, ∀ b ∈ l₂, a ≤ b) :
    List.Sorted (· ≤ ·) (l₁ ++ l₂) :=
  List.pairwise_append.mpr ⟨h₁, h₂, h⟩

theorem run_download_job_empty (n : Nat) (threaded : Bool) (fetch_ok : Nat → Bool)
    (chOrder : List Nat) (convert_mode : Str) (ds : Bool)
    (co ro : ConvLabel → Nat → Bool)
    (h : (fetch_successful threaded n fetch_ok chOrder).isEmpty = true) :
    run_download_job n threaded fetch_ok chOrder convert_mode ds co ro =
      { emits := fetch_emits threaded n ++ [100], phase_emits := [], produced := [],
        successful := fetch_successful threaded n fetch_ok chOrder } := by
  simp only [run_download_job]
  rw [if_pos h]

theorem run_download_job_conv (n : Nat) (threaded : Bool) (fetch_ok : Nat → Bool)
    (chOrder : List Nat) (convert_mode : Str) (ds : Bool)
    (co ro : ConvLabel → Nat → Bool)
    (h : (fetch_successful threaded n fetch_ok chOrder).isEmpty = false) :
    run_download_job n threaded fetch_ok chOrder convert_mode ds co ro =
      { emits := fetch_emits threaded n ++
          (conv_outer ds co ro (conversions_for convert_mode).length
            (fetch_successful threaded n fetch_ok chOrder).length
            (fetch_successful threaded n fetch_ok chOrder) 1
            (conversions_for convert_mode) ⟨fun _ => true, []⟩).2.flatten ++ [100],
        phase_emits := (conv_outer ds co ro (conversions_for convert_mode).length
            (fetch_successful threaded n fetch_ok chOrder).length
            (fetch_successful threaded n fetch_ok chOrder) 1
            (conversions_for convert_mode) ⟨fun _ => true, []⟩).2,
        produced := ((conv_outer ds co ro (conversions_for convert_mode).length
            (fetch_successful threaded n fetch_ok chOrder).length
            (fetch_successful threaded n fetch_ok chOrder) 1
            (conversions_for convert_mode) ⟨fun _ => true, []⟩).1).produced,
        successful := fetch_successful threaded n fetch_ok chOrder } := by
  simp only [run_download_job]
  rw [if_neg (by simp [h])]

/-- Per-phase emission bands of the conversion stage, for any phase list. -/
theorem conv_outer_spec (ds : Bool) (co ro : ConvLabel → Nat → Bool) (nc : Nat)
    (succ : List Nat) (labels : List ConvLabel) :
    ∀ (phase : Nat) (st : ConvState), 1 ≤ phase →
      List.Sorted (· ≤ ·)
        (conv_outer ds co ro nc succ.length succ phase labels st).2.flatten ∧
      (∀ e ∈ (conv_outer ds co ro nc succ.length succ phase labels st).2.flatten,
        min 95 (60 + (phase - 1) * conv_span nc) ≤ e ∧ e ≤ 95) ∧
      (∀ p, ∀ e ∈ (conv_outer ds co ro nc succ.length succ phase labels st).2.getD p [],
        min 95 (60 + (phase - 1 + p) * conv_span nc) ≤ e ∧
        e ≤ min 95 (60 + (phase - 1 + p) * conv_span nc + conv_span nc)) := by
  induction labels with
  | nil =>
    intro phase st _
    rw [conv_outer_nil]
    refine ⟨by simp, by simp, ?_⟩
    intro p e he
    simp at he
  | cons label rest ih =>
    intro phase st hphase
    rw [conv_outer_cons]
    obtain ⟨hin_sorted, hin_bounds⟩ :=
      conv_inner_emits_spec ds label co ro (60 + (phase - 1) * conv_span nc)
        (conv_span nc) succ.length succ 1 st (le_refl 1) (by omega)
    obtain ⟨ih_sorted, ih_bounds, ih_chunks⟩ :=
      ih (phase + 1)
        (conv_inner ds label co ro (60 + (phase - 1) * conv_span nc)
          (conv_span nc) succ.length 1 succ st).1 (by omega)
    have hp : phase - 1 + 1 = phase := Nat.succ_pred_eq_of_pos hphase
    have hbase_eq : 60 + (phase - 1) * conv_span nc + conv_span nc
        = 60 + (phase + 1 - 1) * conv_span nc := by
      have h2 : (phase + 1 - 1) * conv_span nc
          = (phase - 1) * conv_span nc + conv_span nc := by
        rw [Nat.add_sub_cancel]
        conv_lhs => rw [← hp]
        rw [Nat.succ_mul]
      omega
    have hcross : ∀ a ∈ (conv_inner ds label co ro (60 + (phase - 1) * conv_span nc)
        (conv_span nc) succ.length 1 succ st).2,
        ∀ b ∈ (conv_outer ds co ro nc succ.length succ (phase + 1) rest
          (conv_inner ds label co ro (60 + (phase - 1) * conv_span nc)
            (conv_span nc) succ.length 1 succ st).1).2.flatten, a ≤ b := by
      intro a ha b hb
      have h1 := (hin_bounds a ha).2
      have h2 := (ih_bounds b hb).1
      rw [hbase_eq] at h1
      exact le_trans h1 h2
    refine ⟨?_, ?_, ?_⟩
    · rw [List.flatten_cons]
      exact sorted_append_le _ _ hin_sorted ih_sorted hcross
    · rw [List.flatten_cons]
      intro e he
      rcases List.mem_append.mp he with he | he
      · obtain ⟨hl, hu⟩ := hin_bounds e he
        refine ⟨le_trans (min_le_min (le_refl 95) (Nat.le_add_right _ _)) hl, ?_⟩
        exact le_trans hu (Nat.min_le_left _ _)
      · obtain ⟨hl, hu⟩ := ih_bounds e he
        refine ⟨?_, hu⟩
        refine le_trans (min_le_min (le_refl 95) ?_) hl
        rw [← hbase_eq]
        exact Nat.le_add_right _ _
    · intro p e he
      cases p with
      | zero =>
        rw [List.getD_cons_zero] at he
        obtain ⟨hl, hu⟩ := hin_bounds e he
        rw [Nat.add_zero]
        constructor
        · exact le_trans (min_le_min (le_refl 95) (Nat.le_add_right _ _)) hl
        · exact hu
      | succ p =>
        rw [List.getD_cons_succ] at he
        obtain ⟨hl, hu⟩ := ih_chunks p e he
        have harith : phase + 1 - 1 + p = phase - 1 + (p + 1) := by omega
        rw [harith] at hl hu
        exact ⟨hl, hu⟩

/-- Claim C7. For every job over a non-empty chapter selection, the emitted
progress sequence is monotonically non-decreasing, the fetch stage's
emissions stay within 0–60, every conversion emission lies within 60–95 with
phase `p` of the requested conversions confined to the band from
`min 95 (60 + p·span)` to `min 95 (60 + (p+1)·span)` where
`span = 35 / max 1 numConversions` (the integer even subdivision of 60–95,
clamped at 95 as the code clamps), and the final emitted value is 100
regardless of which chapters or conversions failed. -/
theorem job_progress_spec (n : Nat) (threaded : Bool) (fetch_ok : Nat → Bool)
    (chOrder : List Nat) (convert_mode : Str) (delete_sources : Bool)
    (conv_ok rm_ok : ConvLabel → Nat → Bool) (hn : 1 ≤ n) :
    List.Sorted (· ≤ ·) (run_download_job n threaded fetch_ok chOrder convert_mode
      delete_sources conv_ok rm_ok).emits ∧
    (∀ e ∈ fetch_emits threaded n, e ≤ 60) ∧
    (∀ e ∈ (run_download_job n threaded fetch_ok chOrder convert_mode delete_sources
        conv_ok rm_ok).phase_emits.flatten, 60 ≤ e ∧ e ≤ 95) ∧
    (∀ p, ∀ e ∈ (run_download_job n threaded fetch_ok chOrder convert_mode
        delete_sources conv_ok rm_ok).phase_emits.getD p [],
      min 95 (60 + p * conv_span (conversions_for convert_mode).length) ≤ e ∧
      e ≤ min 95 (60 + (p + 1) * conv_span (conversions_for convert_mode).length)) ∧
    (run_download_job n threaded fetch_ok chOrder convert_mode delete_sources
      conv_ok rm_ok).emits.getLast? = some 100 := by
  by_cases hemp : (fetch_successful threaded n fetch_ok chOrder).isEmpty = true
  · rw [run_download_job_empty n threaded fetch_ok chOrder convert_mode delete_sources
      conv_ok rm_ok hemp]
    refine ⟨?_, fetch_emits_le threaded n, ?_, ?_, ?_⟩
    · refine sorted_append_le _ _ (fetch_emits_sorted threaded n)
        (List.sorted_singleton 100) ?_
      intro a ha b hb
      rw [List.mem_singleton] at hb
      subst hb
      exact le_trans (fetch_emits_le threaded n a ha) (by omega)
    · intro e he
      simp at he
    · intro p e he
      simp at he
    · simp
  · have hemp' : (fetch_successful threaded n fetch_ok chOrder).isEmpty = false := by
      revert hemp
      cases (fetch_successful threaded n fetch_ok chOrder).isEmpty <;> simp
    rw [run_download_job_conv n threaded fetch_ok chOrder convert_mode delete_sources
      conv_ok rm_ok hemp']
    obtain ⟨hcsorted, hcbounds, hcchunks⟩ :=
      conv_outer_spec delete_sources conv_ok rm_ok
        (conversions_for convert_mode).length
        (fetch_successful threaded n fetch_ok chOrder) (conversions_for convert_mode)
        1 ⟨fun _ => true, []⟩ (le_refl 1)
    have hmin60 : min 95
        (60 + (1 - 1) * conv_span (conversions_for convert_mode).length) = 60 := by
      norm_num
    have hflat60 : ∀ e ∈ (conv_outer delete_sources conv_ok rm_ok
        (conversions_for convert_mode).length
        (fetch_successful threaded n fetch_ok chOrder).length
        (fetch_successful threaded n fetch_ok chOrder) 1
        (conversions_for convert_mode) ⟨fun _ => true, []⟩).2.flatten,
        60 ≤ e ∧ e ≤ 95 := by
      intro e he
      obtain ⟨hl, hu⟩ := hcbounds e he
      rw [hmin60] at hl
      exact ⟨hl, hu⟩
    refine ⟨?_, fetch_emits_le threaded n, hflat60, ?_, ?_⟩
    · refine sorted_append_le _ _ ?_ (List.sorted_singleton 100) ?_
      · refine sorted_append_le _ _ (fetch_emits_sorted threaded n) hcsorted ?_
        intro a ha b hb
        exact le_trans (fetch_emits_le threaded n a ha) (hflat60 b hb).1
      · intro a ha b hb
        rw [List.mem_singleton] at hb
        subst hb
        rcases List.mem_append.mp ha with ha | ha
        · exact le_trans (fetch_emits_le threaded n a ha) (by omega)
        · exact le_trans (hflat60 a ha).2 (by omega)
    · intro p e he
      obtain ⟨hl, hu⟩ := hcchunks p e he
      have h0 : (1 : Nat) - 1 + p = p := by omega
      rw [h0] at hl hu
      refine ⟨hl, ?_⟩
      rw [Nat.succ_mul, ← Nat.add_assoc]
      exact hu
    · simp [List.getLast?_append]

/-- Witness for `job_progress_spec` at a concrete one-chapter threaded-off
run converting to both formats. -/
theorem job_progress_spec_witness :
    List.Sorted (· ≤ ·) (run_download_job 1 false (fun _ => true) [] "both".toList
      false (fun _ _ => true) (fun _ _ => true)).emits ∧
    (∀ e ∈ fetch_emits false 1, e ≤ 60) ∧
    (∀ e ∈ (run_download_job 1 false (fun _ => true) [] "both".toList false
        (fun _ _ => true) (fun _ _ => true)).phase_emits.flatten, 60 ≤ e ∧ e ≤ 95) ∧
    (∀ p, ∀ e ∈ (run_download_job 1 false (fun _ => true) [] "both".toList false
        (fun _ _ => true) (fun _ _ => true)).phase_emits.getD p [],
      min 95 (60 + p * conv_span (conversions_for "both".toList).length) ≤ e ∧
      e ≤ min 95 (60 + (p + 1) * conv_span (conversions_for "both".toList).length)) ∧
    (run_download_job 1 false (fun _ => true) [] "both".toList false
      (fun _ _ => true) (fun _ _ => true)).emits.getLast? = some 100 :=
  job_progress_spec 1 false (fun _ => true) [] "both".toList false
    (fun _ _ => true) (fun _ _ => true) (by omega)

theorem conversions_for_both :
    conversions_for "both".toList = [ConvLabel.cbz, ConvLabel.pdf] := by decide

/-- Claim C10. With convert mode `both` and delete-sources enabled, a chapter
whose CBZ conversion and directory removal both succeed has its directory
deleted during the CBZ phase (its iteration removes the directory via
`shutil.rmtree` right after the CBZ output is produced), so the directory is
already gone when the PDF phase starts; the PDF phase's existence check then
skips the chapter, and no PDF output is ever produced for it. -/
theorem cbz_cleanup_blocks_pdf (n : Nat) (threaded : Bool) (fetch_ok : Nat → Bool)
    (chOrder : List Nat) (conv_ok rm_ok : ConvLabel → Nat → Bool) (ch : Nat)
    (hch : ch ∈ fetch_successful threaded n fetch_ok chOrder)
    (hcbz : conv_ok ConvLabel.cbz ch = true)
    (hrm : rm_ok ConvLabel.cbz ch = true) :
    (((conv_inner true ConvLabel.cbz conv_ok rm_ok
        (60 + (1 - 1) * conv_span (conversions_for "both".toList).length)
        (conv_span (conversions_for "both".toList).length)
        (fetch_successful threaded n fetch_ok chOrder).length 1
        (fetch_successful threaded n fetch_ok chOrder)
        ⟨fun _ => true, []⟩).1).dirs ch = false) ∧
    (ConvLabel.pdf, ch) ∉ (run_download_job n threaded fetch_ok chOrder
      "both".toList true conv_ok rm_ok).produced := by
  have hdel := conv_inner_cbz_deletes conv_ok rm_ok
    (60 + (1 - 1) * conv_span (conversions_for "both".toList).length)
    (conv_span (conversions_for "both".toList).length)
    (fetch_successful threaded n fetch_ok chOrder).length
    (fetch_successful threaded n fetch_ok chOrder)
    1 ⟨fun _ => true, []⟩ ch hch hcbz hrm
  refine ⟨hdel, ?_⟩
  have hemp' : (fetch_successful threaded n fetch_ok chOrder).isEmpty = false := by
    cases hfs : fetch_successful threaded n fetch_ok chOrder with
    | nil => rw [hfs] at hch; simp at hch
    | cons a l => simp
  rw [run_download_job_conv n threaded fetch_ok chOrder "both".toList true
    conv_ok rm_ok hemp']
  rw [conversions_for_both] at hdel ⊢
  rw [conv_outer_cons, conv_outer_cons, conv_outer_nil]
  refine conv_inner_pdf_skips true conv_ok rm_ok _ _ _ _ _ _ ch hdel ?_
  intro hmem
  rcases conv_inner_produced_subset true ConvLabel.cbz conv_ok rm_ok _ _ _ _ _ _ _
      hmem with h | h
  · simp at h
  · simp at h

/-- Witness for `cbz_cleanup_blocks_pdf` at a concrete one-chapter run. -/
theorem cbz_cleanup_blocks_pdf_witness :
    (((conv_inner true ConvLabel.cbz (fun _ _ => true) (fun _ _ => true)
        (60 + (1 - 1) * conv_span (conversions_for "both".toList).length)
        (conv_span (conversions_for "both".toList).length)
        (fetch_successful false 1 (fun _ => true) []).length 1
        (fetch_successful false 1 (fun _ => true) [])
        ⟨fun _ => true, []⟩).1).dirs 0 = false) ∧
    (ConvLabel.pdf, 0) ∉ (run_download_job 1 false (fun _ => true) []
      "both".toList true (fun _ _ => true) (fun _ _ => true)).produced :=
  cbz_cleanup_blocks_pdf 1 false (fun _ => true) [] (fun _ _ => true)
    (fun _ _ => true) 0 (by decide) rfl rfl

end Mangapark
